import Mathlib

/-!
Shallow embedding of the client-side cache-aside layer of the Eiga app
(`cacheService` in the source): a read-through cache over a persistent
key-value store (AsyncStorage) with TTL expiry and an in-memory registry
of in-flight fetches (`pendingRequests`).

Modelling conventions:
* A JavaScript payload value of type `T | null` is `Option α`; `none`
  models `null` (and the nullish `undefined`), which is also the miss
  sentinel returned by `loadFromCache`.
* Timestamps and expiries are `Int`, so `now - timestamp < expiry`
  carries the exact JavaScript comparison on integers (including a
  timestamp in the future giving a negative difference).
* A persisted blob is an `Entry`: either a well-formed envelope
  `good data timestamp expiry` (the `expiry` field may be absent in the
  stored JSON, in which case the default applies on read), or `corrupt`,
  covering a store read that throws, an unparseable blob, and any other
  envelope whose fields do not destructure; in all those cases the code
  observably returns `null`, exactly as our `corrupt` does.
* The store itself is an association list from composite key to `Entry`;
  `AsyncStorage.setItem` overwrites, `getAllKeys` lists the keys.
* A store write that fails at the `setItem` level is modelled by the
  `writeOk` flag threaded to `saveToCache` (the `catch` swallows it).
* The asynchronous `withCache` is embedded as a small-step machine: each
  step runs one synchronous stretch between two suspension points
  (`await`s) to completion, which is exactly the atomicity the
  single-threaded event loop grants. Promises of the caller-supplied
  `fetchFn` settle to a predetermined `Except` outcome at creation;
  JavaScript truthiness of an unknown payload type is a parameter.
-/

namespace Eiga

/-- 15 minutes in milliseconds, the default cache expiry of the source. -/
def DEFAULT_CACHE_EXPIRY : Int := 1000 * 60 * 15

/-- 1 hour in milliseconds (`LONG_CACHE_EXPIRY`). -/
def LONG_CACHE_EXPIRY : Int := 1000 * 60 * 60

/-- 5 minutes in milliseconds (`SHORT_CACHE_EXPIRY`). -/
def SHORT_CACHE_EXPIRY : Int := 1000 * 60 * 5

/-- A persisted blob under one store key: a well-formed JSON envelope
with a possibly absent `expiry` field, or an unreadable blob. -/
inductive Entry (α : Type) where
  | good (data : Option α) (timestamp : Int) (expiry : Option Int)
  | corrupt
deriving DecidableEq, Repr

/-- The persistent key-value store: an association list keyed by the
composite cache key. -/
def Store (α : Type) := List (String × Entry α)

/-- Lookup in an association list (first binding wins). -/
def alGet {β : Type} : List (String × β) → String → Option β
  | [], _ => none
  | (k, v) :: rest, key => if k = key then some v else alGet rest key

/-- Remove every binding of a key from an association list. -/
def alRemove {β : Type} : List (String × β) → String → List (String × β)
  | [], _ => []
  | (k, v) :: rest, key =>
      if k = key then alRemove rest key else (k, v) :: alRemove rest key

/-- Overwrite the binding of a key in an association list. -/
def alSet {β : Type} (l : List (String × β)) (key : String) (v : β) :
    List (String × β) :=
  (key, v) :: alRemove l key

/-- The keys of the store, as `AsyncStorage.getAllKeys` returns them. -/
def storeKeys {α : Type} (s : Store α) : List String := s.map Prod.fst

/-- The composite cache key: `key_userId` when a userId is supplied,
else `key` alone.  The source builds it with `userId ? key_userId : key`,
so an empty userId string (falsy in JavaScript) also yields the bare key. -/
def cacheKeyOf (key : String) (userId : Option String) : String :=
  match userId with
  | some u => if u = "" then key else key ++ "_" ++ u
  | none => key

/-- The pure tail of `loadFromCache` after the store read: destructure
the envelope and return the data when `now - timestamp < expiry` (with
the default expiry when the field is absent), else `null`. -/
def loadPure {α : Type} (blob : Option (Entry α)) (now : Int) : Option α :=
  match blob with
  | some (Entry.good data timestamp expiry) =>
      if now - timestamp < expiry.getD DEFAULT_CACHE_EXPIRY then data else none
  | _ => none

/-- `cacheService.loadFromCache`: read the composite key from the store
and validate; every failure path (missing key, unreadable blob, expired
entry) returns `null` and the whole body never throws. -/
def loadFromCache {α : Type} (s : Store α) (key : String) (userId : Option String)
    (now : Int) : Option α :=
  loadPure (alGet s (cacheKeyOf key userId)) now

/-- `cacheService.saveToCache`: serialize the envelope with the current
time and write it under the composite key; a failing `setItem` is caught
and swallowed, leaving the store unchanged, and the call still resolves. -/
def saveToCache {α : Type} (s : Store α) (key : String) (data : Option α)
    (userId : Option String) (expiry : Int) (now : Int) (writeOk : Bool) :
    Store α :=
  if writeOk then alSet s (cacheKeyOf key userId) (Entry.good data now (some expiry))
  else s

/-- `cacheService.clearCache`: remove the composite key from the store. -/
def clearCache {α : Type} (s : Store α) (key : String) (userId : Option String) :
    Store α :=
  alRemove s (cacheKeyOf key userId)

/-- Does `l` start with `sub`? (Character-list prefix test.) -/
def beginsWith : List Char → List Char → Bool
  | [], _ => true
  | _ :: _, [] => false
  | c :: cs, d :: ds => c == d && beginsWith cs ds

/-- Does `l` contain `sub` as a contiguous substring?  This is the
embedding of JavaScript `String.prototype.includes`. -/
def hasSubstr (sub : List Char) : List Char → Bool
  | [] => beginsWith sub []
  | c :: rest => beginsWith sub (c :: rest) || hasSubstr sub rest

/-- Does `l` end with `sub`? -/
def endsWithSub (sub l : List Char) : Bool :=
  beginsWith sub.reverse l.reverse

/-- `AsyncStorage.multiRemove`: remove each listed key from the store. -/
def removeAll {α : Type} : Store α → List String → Store α
  | s, [] => s
  | s, k :: rest => removeAll (alRemove s k) rest

/-- `cacheService.clearUserCache`: enumerate all store keys, keep those
that contain the substring `_userId`, and remove them in bulk. -/
def clearUserCache {α : Type} (s : Store α) (userId : String) : Store α :=
  let userKeys := (storeKeys s).filter (fun k => hasSubstr ("_" ++ userId).data k.data)
  removeAll s userKeys

/-!
The `withCache` coroutine.  One `Task` is one call
`withCache(key, fetchFn, userId, expiry, forceRefresh)`; its `Phase`
records the suspension point it is parked at, holding the values the
source evaluates before suspending (the blob read by `getItem`, the
slot read from `pendingRequests` at the `if (await pendingRequests[cacheKey])`
line, the promise id awaited).  Consecutive resumptions with no
intervening shared-state writes are collapsed into one step.
-/

/-- The suspension points of one `withCache` call. -/
inductive Phase (ε α : Type) where
  | start
  | afterClear
  | afterGetItem (blob : Option (Entry α))
  | afterAwaitPending (slot : Option Nat)
  | awaitingFetch (pid : Nat)
  | afterSave (data : Option α)
  | awaitingReturn (pid : Nat)
  | done (result : Except ε (Option α))
deriving Repr

/-- The shared state all `withCache` calls see: the persistent store,
the `pendingRequests` registry (composite key to promise id), the
settled outcomes of created fetch promises, the count of `fetchFn`
invocations, the current clock, and whether `setItem` succeeds. -/
structure World (ε α : Type) where
  store : Store α
  pending : List (String × Nat)
  promises : List (Except ε (Option α))
  fetchCount : Nat
  now : Int
  writeOk : Bool

/-- One `withCache` call: its arguments, the predetermined outcome of
its `fetchFn`, and the suspension point it is parked at. -/
structure Task (ε α : Type) where
  key : String
  userId : Option String
  expiry : Int
  forceRefresh : Bool
  fetch : Except ε (Option α)
  phase : Phase ε α

/-- The settled value of a promise id. -/
def promiseValue {ε α : Type} (w : World ε α) (pid : Nat) : Except ε (Option α) :=
  (w.promises[pid]?).getD (Except.ok none)

/-- JavaScript truthiness of a `T | null` value: `null` is falsy, and
truthiness of the payload type itself is the parameter `truthy`. -/
def jsTruthy {α : Type} (truthy : α → Bool) : Option α → Bool
  | none => false
  | some v => truthy v

/-- Run one synchronous stretch of `cacheService.withCache` for one
task, from its current suspension point to the next.  Mirrors the
source line by line:
* `start`: with `forceRefresh` the key is removed (`clearCache`) and the
  task suspends in `removeItem`; otherwise `loadFromCache` reads the
  store and suspends in `getItem`.
* `afterClear` / a missed `afterGetItem`: the task reaches
  `if (await pendingRequests[cacheKey])`, evaluates the slot, and
  suspends in that `await` — a genuine suspension point before any
  registration happens.
* `afterAwaitPending`: resumed with the awaited value.  A falsy value
  (absent slot, or a settled payload that is falsy) falls through to
  `pendingRequests[cacheKey] = fetchFn()`: the fetch is invoked (counted),
  a fresh promise is registered, and the task suspends awaiting it
  (line `const data = await pendingRequests[cacheKey]`).  A rejected
  pending promise makes the `await` throw before the `try`, so the call
  rejects without touching the registry.  A truthy value reaches
  `return pendingRequests[cacheKey]`, re-reading the slot.
* `awaitingFetch`: a rejection reaches the `finally`, which deletes the
  registration, and the call rejects; a resolution runs `saveToCache`
  (the write applied only when `writeOk`) and suspends in `setItem`.
* `afterSave`: the `finally` deletes the registration and the call
  resolves with the fetched data. -/
def step {ε α : Type} (truthy : α → Bool) (w : World ε α) (t : Task ε α) :
    World ε α × Task ε α :=
  let cacheKey := cacheKeyOf t.key t.userId
  match t.phase with
  | Phase.start =>
      if t.forceRefresh then
        (⟨clearCache w.store t.key t.userId, w.pending, w.promises, w.fetchCount,
            w.now, w.writeOk⟩,
          { t with phase := Phase.afterClear })
      else
        (w, { t with phase := Phase.afterGetItem (alGet w.store cacheKey) })
  | Phase.afterClear =>
      (w, { t with phase := Phase.afterAwaitPending (alGet w.pending cacheKey) })
  | Phase.afterGetItem blob =>
      match loadPure blob w.now with
      | some v => (w, { t with phase := Phase.done (Except.ok (some v)) })
      | none => (w, { t with phase := Phase.afterAwaitPending (alGet w.pending cacheKey) })
  | Phase.afterAwaitPending none =>
      let pid := w.promises.length
      (⟨w.store, alSet w.pending cacheKey pid, w.promises ++ [t.fetch],
          w.fetchCount + 1, w.now, w.writeOk⟩,
        { t with phase := Phase.awaitingFetch pid })
  | Phase.afterAwaitPending (some pid) =>
      match promiseValue w pid with
      | Except.error e => (w, { t with phase := Phase.done (Except.error e) })
      | Except.ok v =>
          if jsTruthy truthy v then
            match alGet w.pending cacheKey with
            | some pid2 => (w, { t with phase := Phase.awaitingReturn pid2 })
            | none => (w, { t with phase := Phase.done (Except.ok none) })
          else
            let pid2 := w.promises.length
            (⟨w.store, alSet w.pending cacheKey pid2, w.promises ++ [t.fetch],
                w.fetchCount + 1, w.now, w.writeOk⟩,
              { t with phase := Phase.awaitingFetch pid2 })
  | Phase.awaitingFetch pid =>
      match promiseValue w pid with
      | Except.error e =>
          (⟨w.store, alRemove w.pending cacheKey, w.promises, w.fetchCount,
              w.now, w.writeOk⟩,
            { t with phase := Phase.done (Except.error e) })
      | Except.ok v =>
          (⟨saveToCache w.store t.key v t.userId t.expiry w.now w.writeOk,
              w.pending, w.promises, w.fetchCount, w.now, w.writeOk⟩,
            { t with phase := Phase.afterSave v })
  | Phase.afterSave v =>
      (⟨w.store, alRemove w.pending cacheKey, w.promises, w.fetchCount,
          w.now, w.writeOk⟩,
        { t with phase := Phase.done (Except.ok v) })
  | Phase.awaitingReturn pid =>
      (w, { t with phase := Phase.done (promiseValue w pid) })
  | Phase.done _ => (w, t)

/-- Step the scheduled task of a task pool once. -/
def schedStep {ε α : Type} (truthy : α → Bool) (w : World ε α)
    (tasks : List (Task ε α)) (i : Nat) : World ε α × List (Task ε α) :=
  match tasks[i]? with
  | none => (w, tasks)
  | some t =>
      let p := step truthy w t
      (p.1, tasks.set i p.2)

/-- Run a cooperative schedule (a list of task indices) over a task pool. -/
def runSched {ε α : Type} (truthy : α → Bool) :
    World ε α → List (Task ε α) → List Nat → World ε α × List (Task ε α)
  | w, tasks, [] => (w, tasks)
  | w, tasks, i :: rest =>
      let p := schedStep truthy w tasks i
      runSched truthy p.1 p.2 rest

/-- A fresh `withCache` call. -/
def withCacheTask {ε α : Type} (key : String) (userId : Option String)
    (expiry : Int) (forceRefresh : Bool) (fetch : Except ε (Option α)) :
    Task ε α :=
  ⟨key, userId, expiry, forceRefresh, fetch, Phase.start⟩

/-- Run a single `withCache` call to completion (every sequential path
reaches `done` within five steps; a sixth step is a no-op). -/
def withCacheRun {ε α : Type} (truthy : α → Bool) (w : World ε α) (t : Task ε α) :
    World ε α × Task ε α :=
  let p1 := step truthy w t
  let p2 := step truthy p1.1 p1.2
  let p3 := step truthy p2.1 p2.2
  let p4 := step truthy p3.1 p3.2
  let p5 := step truthy p4.1 p4.2
  step truthy p5.1 p5.2

/-!  Run lemmas: the four sequential execution shapes of a single
`withCache` call started in a world with an empty in-flight registry. -/

/-- A `withCache` call that finds a valid entry resolves with it,
touches nothing, and never invokes `fetchFn`. -/
theorem run_hit {ε α : Type} (truthy : α → Bool) (store : Store α) (key : String)
    (userId : Option String) (expiry now : Int) (writeOk : Bool)
    (fetch : Except ε (Option α)) (v : α)
    (hhit : loadFromCache store key userId now = some v) :
    withCacheRun truthy ⟨store, [], [], 0, now, writeOk⟩
        (withCacheTask key userId expiry false fetch) =
      (⟨store, [], [], 0, now, writeOk⟩,
        ⟨key, userId, expiry, false, fetch, Phase.done (Except.ok (some v))⟩) := by
  unfold loadFromCache at hhit
  simp [withCacheRun, withCacheTask, step, hhit]

/-- A `withCache` call that misses and whose fetch resolves: one
invocation of `fetchFn`, result written back (when the store write
succeeds) and returned, registry left clean. -/
theorem run_miss_ok {ε α : Type} (truthy : α → Bool) (store : Store α) (key : String)
    (userId : Option String) (expiry now : Int) (writeOk : Bool) (v : Option α)
    (hmiss : loadFromCache store key userId now = none) :
    withCacheRun truthy ⟨store, [], [], 0, now, writeOk⟩
        (withCacheTask key userId expiry false (Except.ok v : Except ε (Option α))) =
      (⟨saveToCache store key v userId expiry now writeOk, [], [Except.ok v], 1, now, writeOk⟩,
        ⟨key, userId, expiry, false, Except.ok v, Phase.done (Except.ok v)⟩) := by
  unfold loadFromCache at hmiss
  simp [withCacheRun, withCacheTask, step, hmiss, alGet, alSet, alRemove, promiseValue]

/-- A `withCache` call that misses and whose fetch rejects: the call
rejects with the same error, the store is untouched, and the in-flight
registration is removed again. -/
theorem run_miss_err {ε α : Type} (truthy : α → Bool) (store : Store α) (key : String)
    (userId : Option String) (expiry now : Int) (writeOk : Bool) (e : ε)
    (hmiss : loadFromCache store key userId now = none) :
    withCacheRun truthy ⟨store, [], [], 0, now, writeOk⟩
        (withCacheTask key userId expiry false (Except.error e : Except ε (Option α))) =
      (⟨store, [], [Except.error e], 1, now, writeOk⟩,
        ⟨key, userId, expiry, false, Except.error e, Phase.done (Except.error e)⟩) := by
  unfold loadFromCache at hmiss
  simp [withCacheRun, withCacheTask, step, hmiss, alGet, alSet, alRemove, promiseValue]

/-- A `withCache` call with `forceRefresh`: the key is cleared first,
the cache read is skipped, `fetchFn` is invoked once, and its result is
written back and returned. -/
theorem run_force {ε α : Type} (truthy : α → Bool) (store : Store α) (key : String)
    (userId : Option String) (expiry now : Int) (writeOk : Bool) (v : Option α) :
    withCacheRun truthy ⟨store, [], [], 0, now, writeOk⟩
        (withCacheTask key userId expiry true (Except.ok v : Except ε (Option α))) =
      (⟨saveToCache (clearCache store key userId) key v userId expiry now writeOk,
          [], [Except.ok v], 1, now, writeOk⟩,
        ⟨key, userId, expiry, true, Except.ok v, Phase.done (Except.ok v)⟩) := by
  simp [withCacheRun, withCacheTask, step, alGet, alSet, alRemove, promiseValue]

/-! Association-list lemmas. -/

theorem alGet_alRemove_self {β : Type} (s : List (String × β)) (k : String) :
    alGet (alRemove s k) k = none := by
  induction s with
  | nil => rfl
  | cons hd tl ih =>
    obtain ⟨a, b⟩ := hd
    by_cases h : a = k
    · simpa [alRemove, h] using ih
    · simp [alRemove, alGet, h, ih]

theorem alGet_alRemove_ne {β : Type} (s : List (String × β)) (k' k : String)
    (h : k' ≠ k) : alGet (alRemove s k') k = alGet s k := by
  induction s with
  | nil => rfl
  | cons hd tl ih =>
    obtain ⟨a, b⟩ := hd
    by_cases h1 : a = k'
    · subst h1; simp [alRemove, alGet, h, ih]
    · simp [alRemove, alGet, h1, ih]

theorem alGet_alSet_self {β : Type} (s : List (String × β)) (k : String) (v : β) :
    alGet (alSet s k v) k = some v := by
  simp [alSet, alGet]

theorem alGet_alSet_ne {β : Type} (s : List (String × β)) (k' k : String) (v : β)
    (h : k' ≠ k) : alGet (alSet s k' v) k = alGet s k := by
  simp [alSet, alGet, h, alGet_alRemove_ne s k' k h]

theorem mem_keys_of_alGet {β : Type} (s : List (String × β)) (k : String) (v : β)
    (h : alGet s k = some v) : k ∈ s.map Prod.fst := by
  induction s with
  | nil => simp [alGet] at h
  | cons hd tl ih =>
    obtain ⟨a, b⟩ := hd
    by_cases h1 : a = k
    · simp [h1]
    · simp [alGet, h1] at h
      simp [ih h]

theorem alGet_removeAll {α : Type} (ks : List String) :
    ∀ (s : Store α) (k : String),
      alGet (removeAll s ks) k = if k ∈ ks then none else alGet s k := by
  induction ks with
  | nil => intro s k; simp [removeAll]
  | cons k1 rest ih =>
    intro s k
    show alGet (removeAll (alRemove s k1) rest) k = _
    rw [ih]
    by_cases h1 : k ∈ rest
    · simp [h1]
    · by_cases h2 : k1 = k
      · subst h2; simp [h1, alGet_alRemove_self]
      · simp [h1, h2, Ne.symm h2, alGet_alRemove_ne s k1 k h2]

/-! Substring and composite-key lemmas. -/

theorem beginsWith_iff (sub : List Char) : ∀ l : List Char,
    beginsWith sub l = true ↔ ∃ r, l = sub ++ r := by
  induction sub with
  | nil => intro l; simp [beginsWith]
  | cons c cs ih =>
    intro l
    cases l with
    | nil => simp [beginsWith]
    | cons d ds =>
      simp only [beginsWith, Bool.and_eq_true, beq_iff_eq, ih ds, List.cons_append,
        List.cons.injEq]
      constructor
      · rintro ⟨h1, r, h2⟩; exact ⟨r, h1.symm, h2⟩
      · rintro ⟨r, h1, h2⟩; exact ⟨h1.symm, r, h2⟩

theorem hasSubstr_iff (sub : List Char) : ∀ l : List Char,
    hasSubstr sub l = true ↔ ∃ p q, l = p ++ sub ++ q := by
  intro l
  induction l with
  | nil =>
    simp only [hasSubstr, beginsWith_iff]
    constructor
    · rintro ⟨r, h⟩
      exact ⟨[], r, by simpa using h⟩
    · rintro ⟨p, q, h⟩
      have h2 := h.symm
      simp only [List.append_eq_nil] at h2
      exact ⟨[], by simp [h2.1.2]⟩
  | cons c rest ih =>
    simp only [hasSubstr, Bool.or_eq_true, beginsWith_iff, ih]
    constructor
    · rintro (⟨r, h⟩ | ⟨p, q, h⟩)
      · exact ⟨[], r, by simp [h]⟩
      · exact ⟨c :: p, q, by simp [h]⟩
    · rintro ⟨p, q, h⟩
      cases p with
      | nil => exact Or.inl ⟨q, by simpa using h⟩
      | cons x xs =>
        simp only [List.cons_append, List.cons.injEq] at h
        exact Or.inr ⟨xs, q, h.2⟩

theorem endsWithSub_iff (sub l : List Char) :
    endsWithSub sub l = true ↔ ∃ p, l = p ++ sub := by
  unfold endsWithSub
  rw [beginsWith_iff]
  constructor
  · rintro ⟨r, h⟩
    refine ⟨r.reverse, ?_⟩
    have h2 := congrArg List.reverse h
    simpa using h2
  · rintro ⟨p, h⟩
    exact ⟨p.reverse, by simp [h]⟩

theorem cacheKeyOf_some_inj (key a b : String) (h : a ≠ b) :
    cacheKeyOf key (some a) ≠ cacheKeyOf key (some b) := by
  unfold cacheKeyOf
  by_cases ha : a = ""
  · by_cases hb : b = ""
    · exact absurd (ha.trans hb.symm) h
    · simp only [ha, if_pos rfl, if_neg hb]
      intro heq
      have hd := congrArg String.data heq
      simp only [String.data_append] at hd
      have := congrArg List.length hd
      simp [List.length_append] at this
  · by_cases hb : b = ""
    · simp only [if_neg ha, hb, if_pos rfl]
      intro heq
      have hd := congrArg String.data heq
      simp only [String.data_append] at hd
      have := congrArg List.length hd
      simp [List.length_append] at this
    · simp only [if_neg ha, if_neg hb]
      intro heq
      have hd := congrArg String.data heq
      simp only [String.data_append] at hd
      have h2 := List.append_cancel_left hd
      exact h (String.ext (by simpa using h2))

/-!
The claims.
-/

/-- C1 (code bug): the spec claims single-flight de-duplication — N
concurrent `getOrFetch` calls for one key make exactly one `fetchFn`
invocation, all callers sharing its payload, because check and
registration of the in-flight registry have no suspension point between
them.  The source's check `if (await pendingRequests[cacheKey])` contains
an `await`, a suspension point between the check and the registration.
This theorem runs two concurrent calls for the same composite key on an
empty store under the interleaving the event loop itself produces (both
calls pass the check before either registers): `fetchFn` is invoked
twice and the callers resolve with two different payloads. -/
theorem c1_singleflight_two_fetches :
    (runSched (fun _ => true) (⟨[], [], [], 0, 0, true⟩ : World Unit Nat)
        [withCacheTask "k" (some "u") 1000 false (Except.ok (some 1)),
          withCacheTask "k" (some "u") 1000 false (Except.ok (some 2))]
        [0, 1, 0, 1, 0, 1, 0, 1, 0, 1]).1.fetchCount = 2 ∧
    ((runSched (fun _ => true) (⟨[], [], [], 0, 0, true⟩ : World Unit Nat)
        [withCacheTask "k" (some "u") 1000 false (Except.ok (some 1)),
          withCacheTask "k" (some "u") 1000 false (Except.ok (some 2))]
        [0, 1, 0, 1, 0, 1, 0, 1, 0, 1]).2.map (fun t => t.phase)) =
      [Phase.done (Except.ok (some 1)), Phase.done (Except.ok (some 2))] :=
  ⟨rfl, rfl⟩

/-- C2 counterexample: the claim quantifies over every payload
`set`/`saveToCache` accepted, but a freshly-set, non-expired entry whose
payload is null makes `withCache` invoke `fetchFn` once (not zero times)
and resolve with the fetch result instead of the stored payload. -/
theorem c2_null_payload_counterexample :
    alGet (saveToCache ([] : Store Nat) "k" none (some "u") 1000 0 true) "k_u" =
      some (Entry.good none 0 (some 1000)) ∧
    (withCacheRun (fun _ => true)
        (⟨saveToCache ([] : Store Nat) "k" none (some "u") 1000 0 true,
            [], [], 0, 5, true⟩ : World Unit Nat)
        (withCacheTask "k" (some "u") 1000 false (Except.ok (some 7)))).1.fetchCount = 1 ∧
    (withCacheRun (fun _ => true)
        (⟨saveToCache ([] : Store Nat) "k" none (some "u") 1000 0 true,
            [], [], 0, 5, true⟩ : World Unit Nat)
        (withCacheTask "k" (some "u") 1000 false (Except.ok (some 7)))).2.phase =
      Phase.done (Except.ok (some 7)) :=
  ⟨rfl, rfl, rfl⟩

/-- C2 amended: for every key and optional scope holding a freshly-set,
non-expired entry with a non-null payload `v`, `withCache` with
`forceRefresh = false` resolves to `v`, leaves the world untouched, and
never invokes `fetchFn` (the fetch count stays 0 and no promise is
created). -/
theorem c2_cache_hit_avoids_fetch {ε α : Type} (truthy : α → Bool) (store0 : Store α)
    (key : String) (userId : Option String) (ex t expiry now : Int) (writeOk : Bool)
    (fetch : Except ε (Option α)) (v : α)
    (hfresh : now - t < ex) :
    withCacheRun truthy
        ⟨saveToCache store0 key (some v) userId ex t true, [], [], 0, now, writeOk⟩
        (withCacheTask key userId expiry false fetch) =
      (⟨saveToCache store0 key (some v) userId ex t true, [], [], 0, now, writeOk⟩,
        ⟨key, userId, expiry, false, fetch, Phase.done (Except.ok (some v))⟩) := by
  apply run_hit
  unfold loadFromCache saveToCache
  simp [alGet_alSet_self, loadPure, hfresh]

/-- Witness for C2 amended at a concrete input. -/
theorem c2_cache_hit_avoids_fetch_witness :
    withCacheRun (fun _ => true)
        ⟨saveToCache ([] : Store Nat) "k" (some 3) (some "u") 1000 0 true,
          [], [], 0, 5, true⟩
        (withCacheTask "k" (some "u") 500 false (Except.ok none : Except Unit (Option Nat))) =
      (⟨saveToCache ([] : Store Nat) "k" (some 3) (some "u") 1000 0 true,
          [], [], 0, 5, true⟩,
        ⟨"k", some "u", 500, false, Except.ok none, Phase.done (Except.ok (some 3))⟩) :=
  c2_cache_hit_avoids_fetch (fun _ => true) [] "k" (some "u") 1000 0 500 5 true
    (Except.ok none) 3 (by decide)

/-- C3 counterexample: the claim says exactly the keys ending in
`_scope` are removed and all others left unchanged; the key `a_u_b`
does not end with `_u` (it merely contains it), yet
`clearUserCache "u"` removes its entry. -/
theorem c3_suffix_counterexample :
    alGet ([("a_u_b", Entry.good (some 1) 0 none)] : Store Nat) "a_u_b" =
      some (Entry.good (some 1) 0 none) ∧
    alGet (clearUserCache ([("a_u_b", Entry.good (some 1) 0 none)] : Store Nat) "u")
      "a_u_b" = none ∧
    ¬ ∃ p : List Char, "a_u_b".data = p ++ "_u".data := by
  refine ⟨rfl, rfl, fun hex => ?_⟩
  have h2 := (endsWithSub_iff "_u".data "a_u_b".data).mpr hex
  exact absurd h2 (by decide)

/-- C3 amended: `clearUserCache scope` removes exactly the entries whose
composite key contains `_scope` as a contiguous substring (the
JavaScript `includes` test), leaving every other entry unchanged; the
second conjunct ties the executable substring test to its mathematical
meaning. -/
theorem c3_scope_sweep_substring {α : Type} (s : Store α) (userId k : String) :
    (alGet (clearUserCache s userId) k =
      if hasSubstr ("_" ++ userId).data k.data then none else alGet s k) ∧
    (hasSubstr ("_" ++ userId).data k.data = true ↔
      ∃ p q, k.data = p ++ ("_" ++ userId).data ++ q) := by
  constructor
  · show alGet (removeAll s _) k = _
    rw [alGet_removeAll]
    by_cases hsub : hasSubstr ("_" ++ userId).data k.data = true
    · rw [if_pos hsub]
      by_cases hin :
          k ∈ (storeKeys s).filter (fun k2 => hasSubstr ("_" ++ userId).data k2.data)
      · rw [if_pos hin]
      · rw [if_neg hin]
        cases hget : alGet s k with
        | none => rfl
        | some v =>
          exact absurd (List.mem_filter.mpr ⟨mem_keys_of_alGet s k v hget, hsub⟩) hin
    · have hnin :
          k ∉ (storeKeys s).filter (fun k2 => hasSubstr ("_" ++ userId).data k2.data) :=
        fun hin => hsub (List.mem_filter.mp hin).2
      rw [if_neg hnin, if_neg hsub]
  · exact hasSubstr_iff _ _

/-- C4: on a cache miss, a rejecting `fetchFn` makes `withCache` reject
with the same error, writes nothing to the store, and still clears the
in-flight registration (the pending list ends empty), so an immediately
subsequent call for the same key with a succeeding `fetchFn` invokes it
(fetch count 1) and resolves with its payload. -/
theorem c4_failed_fetch_unblocks_retry {ε α : Type} (truthy : α → Bool) (store : Store α)
    (key : String) (userId : Option String) (expiry now : Int) (writeOk : Bool)
    (e : ε) (v : Option α)
    (hmiss : loadFromCache store key userId now = none) :
    withCacheRun truthy ⟨store, [], [], 0, now, writeOk⟩
        (withCacheTask key userId expiry false (Except.error e : Except ε (Option α))) =
      (⟨store, [], [Except.error e], 1, now, writeOk⟩,
        ⟨key, userId, expiry, false, Except.error e, Phase.done (Except.error e)⟩) ∧
    withCacheRun truthy ⟨store, [], [], 0, now, writeOk⟩
        (withCacheTask key userId expiry false (Except.ok v : Except ε (Option α))) =
      (⟨saveToCache store key v userId expiry now writeOk, [], [Except.ok v], 1, now, writeOk⟩,
        ⟨key, userId, expiry, false, Except.ok v, Phase.done (Except.ok v)⟩) :=
  ⟨run_miss_err truthy store key userId expiry now writeOk e hmiss,
    run_miss_ok truthy store key userId expiry now writeOk v hmiss⟩

/-- Witness for C4 at a concrete input. -/
theorem c4_failed_fetch_unblocks_retry_witness :
    withCacheRun (fun _ => true) (⟨[], [], [], 0, 0, true⟩ : World String Nat)
        (withCacheTask "k" (some "u") 1000 false (Except.error "boom" : Except String (Option Nat))) =
      (⟨[], [], [Except.error "boom"], 1, 0, true⟩,
        ⟨"k", some "u", 1000, false, Except.error "boom", Phase.done (Except.error "boom")⟩) ∧
    withCacheRun (fun _ => true) (⟨[], [], [], 0, 0, true⟩ : World String Nat)
        (withCacheTask "k" (some "u") 1000 false (Except.ok (some 4) : Except String (Option Nat))) =
      (⟨saveToCache [] "k" (some 4) (some "u") 1000 0 true, [], [Except.ok (some 4)], 1, 0, true⟩,
        ⟨"k", some "u", 1000, false, Except.ok (some 4), Phase.done (Except.ok (some 4))⟩) :=
  c4_failed_fetch_unblocks_retry (fun _ => true) [] "k" (some "u") 1000 0 true "boom"
    (some 4) rfl

/-- C5: a key whose stored entry is expired (`now - storedAt` not below
its ttl) makes `withCache` invoke `fetchFn` exactly once, return its
result, and write that result to the store as the new entry. -/
theorem c5_expiry_triggers_refetch {ε α : Type} (truthy : α → Bool) (store : Store α)
    (key : String) (userId : Option String) (expiry now : Int) (d : Option α) (ts : Int)
    (eOpt : Option Int) (v : Option α)
    (hentry : alGet store (cacheKeyOf key userId) = some (Entry.good d ts eOpt))
    (hexp : ¬ now - ts < eOpt.getD DEFAULT_CACHE_EXPIRY) :
    withCacheRun truthy ⟨store, [], [], 0, now, true⟩
        (withCacheTask key userId expiry false (Except.ok v : Except ε (Option α))) =
      (⟨saveToCache store key v userId expiry now true, [], [Except.ok v], 1, now, true⟩,
        ⟨key, userId, expiry, false, Except.ok v, Phase.done (Except.ok v)⟩) ∧
    alGet (saveToCache store key v userId expiry now true) (cacheKeyOf key userId) =
      some (Entry.good v now (some expiry)) := by
  constructor
  · apply run_miss_ok
    unfold loadFromCache
    rw [hentry]
    simp [loadPure, hexp]
  · unfold saveToCache
    simp [alGet_alSet_self]

/-- Witness for C5 at a concrete input. -/
theorem c5_expiry_triggers_refetch_witness :
    withCacheRun (fun _ => true)
        (⟨[("k_u", Entry.good (some 9) 0 (some 10))], [], [], 0, 50, true⟩ : World Unit Nat)
        (withCacheTask "k" (some "u") 1000 false (Except.ok (some 4) : Except Unit (Option Nat))) =
      (⟨saveToCache [("k_u", Entry.good (some 9) 0 (some 10))] "k" (some 4) (some "u") 1000 50 true,
          [], [Except.ok (some 4)], 1, 50, true⟩,
        ⟨"k", some "u", 1000, false, Except.ok (some 4), Phase.done (Except.ok (some 4))⟩) ∧
    alGet (saveToCache [("k_u", Entry.good (some 9) 0 (some 10))] "k" (some 4) (some "u") 1000 50 true)
        (cacheKeyOf "k" (some "u")) = some (Entry.good (some 4) 50 (some 1000)) :=
  c5_expiry_triggers_refetch (fun _ => true) [("k_u", Entry.good (some 9) 0 (some 10))]
    "k" (some "u") 1000 50 (some 9) 0 (some 10) (some 4) rfl (by decide)

/-- C6: two `set` calls for the same logical key under distinct scopes
write to distinct composite keys and do not overwrite each other, and
each `get` returns its own scope's payload. -/
theorem c6_scope_isolation {α : Type} (store : Store α) (key : String)
    (sA sB : String) (hne : sA ≠ sB) (dA dB : Option α) (exA exB t1 t2 now : Int)
    (hA : now - t1 < exA) (hB : now - t2 < exB) :
    cacheKeyOf key (some sA) ≠ cacheKeyOf key (some sB) ∧
    loadFromCache
        (saveToCache (saveToCache store key dA (some sA) exA t1 true)
          key dB (some sB) exB t2 true) key (some sA) now = dA ∧
    loadFromCache
        (saveToCache (saveToCache store key dA (some sA) exA t1 true)
          key dB (some sB) exB t2 true) key (some sB) now = dB := by
  have hkey := cacheKeyOf_some_inj key sA sB hne
  refine ⟨hkey, ?_, ?_⟩
  · unfold loadFromCache saveToCache
    simp [alGet_alSet_ne _ _ _ _ (Ne.symm hkey), alGet_alSet_self, loadPure, hA]
  · unfold loadFromCache saveToCache
    simp [alGet_alSet_self, loadPure, hB]

/-- Witness for C6 at a concrete input. -/
theorem c6_scope_isolation_witness :
    cacheKeyOf "k" (some "a") ≠ cacheKeyOf "k" (some "b") ∧
    loadFromCache
        (saveToCache (saveToCache ([] : Store Nat) "k" (some 1) (some "a") 100 0 true)
          "k" (some 2) (some "b") 100 0 true) "k" (some "a") 5 = some 1 ∧
    loadFromCache
        (saveToCache (saveToCache ([] : Store Nat) "k" (some 1) (some "a") 100 0 true)
          "k" (some 2) (some "b") 100 0 true) "k" (some "b") 5 = some 2 :=
  c6_scope_isolation [] "k" "a" "b" (by decide) (some 1) (some 2) 100 100 0 0 5
    (by decide) (by decide)

/-- C7: `loadFromCache` (a total function, so it never throws) returns a
payload exactly when the entry under the composite key is a readable
envelope holding that non-null payload with `now - storedAt < ttl`; in
every other case — missing entry, unreadable blob, expired entry, null
payload — it returns the miss sentinel. -/
theorem c7_get_validity_exact {α : Type} (store : Store α) (key : String)
    (userId : Option String) (now : Int) (v : α) :
    loadFromCache store key userId now = some v ↔
      ∃ (ts : Int) (eOpt : Option Int),
        alGet store (cacheKeyOf key userId) = some (Entry.good (some v) ts eOpt) ∧
        now - ts < eOpt.getD DEFAULT_CACHE_EXPIRY := by
  unfold loadFromCache
  cases hget : alGet store (cacheKeyOf key userId) with
  | none => simp [loadPure]
  | some entry =>
    cases entry with
    | corrupt => simp [loadPure]
    | good d ts eOpt =>
      have hload : loadPure (some (Entry.good d ts eOpt)) now =
          if now - ts < eOpt.getD DEFAULT_CACHE_EXPIRY then d else none := rfl
      rw [hload]
      by_cases hlt : now - ts < eOpt.getD DEFAULT_CACHE_EXPIRY
      · rw [if_pos hlt]
        constructor
        · intro hd; exact ⟨ts, eOpt, by rw [hd], hlt⟩
        · rintro ⟨ts2, e2, heq, hlt2⟩
          simp only [Option.some.injEq, Entry.good.injEq] at heq
          exact heq.1
      · rw [if_neg hlt]
        constructor
        · intro h; exact Option.noConfusion h
        · rintro ⟨ts2, e2, heq, hlt2⟩
          simp only [Option.some.injEq, Entry.good.injEq] at heq
          obtain ⟨-, hts, he⟩ := heq
          subst hts; subst he
          exact absurd hlt2 hlt

/-- C8: with a valid non-expired entry present (first conjunct),
`withCache` with `forceRefresh = true` removes the entry, skips the
cache read, invokes `fetchFn` once, and on success overwrites the
stored entry with the fetch result. -/
theorem c8_force_refresh_bypasses_cache {ε α : Type} (truthy : α → Bool) (store : Store α)
    (key : String) (userId : Option String) (expiry now : Int) (p : α) (ts : Int)
    (eOpt : Option Int) (v : Option α)
    (hentry : alGet store (cacheKeyOf key userId) = some (Entry.good (some p) ts eOpt))
    (hvalid : now - ts < eOpt.getD DEFAULT_CACHE_EXPIRY) :
    loadFromCache store key userId now = some p ∧
    withCacheRun truthy ⟨store, [], [], 0, now, true⟩
        (withCacheTask key userId expiry true (Except.ok v : Except ε (Option α))) =
      (⟨saveToCache (clearCache store key userId) key v userId expiry now true,
          [], [Except.ok v], 1, now, true⟩,
        ⟨key, userId, expiry, true, Except.ok v, Phase.done (Except.ok v)⟩) ∧
    alGet (saveToCache (clearCache store key userId) key v userId expiry now true)
        (cacheKeyOf key userId) = some (Entry.good v now (some expiry)) := by
  refine ⟨?_, run_force truthy store key userId expiry now true v, ?_⟩
  · unfold loadFromCache
    rw [hentry]
    simp [loadPure, hvalid]
  · unfold saveToCache
    simp [alGet_alSet_self]

/-- Witness for C8 at a concrete input. -/
theorem c8_force_refresh_bypasses_cache_witness :
    loadFromCache [("k_u", Entry.good (some 9) 0 (some 100))] "k" (some "u") 5 = some 9 ∧
    withCacheRun (fun _ => true)
        (⟨[("k_u", Entry.good (some 9) 0 (some 100))], [], [], 0, 5, true⟩ : World Unit Nat)
        (withCacheTask "k" (some "u") 1000 true (Except.ok (some 4) : Except Unit (Option Nat))) =
      (⟨saveToCache (clearCache [("k_u", Entry.good (some 9) 0 (some 100))] "k" (some "u"))
            "k" (some 4) (some "u") 1000 5 true,
          [], [Except.ok (some 4)], 1, 5, true⟩,
        ⟨"k", some "u", 1000, true, Except.ok (some 4), Phase.done (Except.ok (some 4))⟩) ∧
    alGet (saveToCache (clearCache [("k_u", Entry.good (some 9) 0 (some 100))] "k" (some "u"))
          "k" (some 4) (some "u") 1000 5 true)
        (cacheKeyOf "k" (some "u")) = some (Entry.good (some 4) 5 (some 1000)) :=
  c8_force_refresh_bypasses_cache (fun _ => true) [("k_u", Entry.good (some 9) 0 (some 100))]
    "k" (some "u") 1000 5 9 0 (some 100) (some 4) rfl (by decide)

/-- C9: a failing store write inside `saveToCache` is swallowed — the
store is unchanged and the call resolves — and a `withCache` call whose
fetch succeeded still resolves with the fetched payload even though the
cache write failed. -/
theorem c9_write_failure_swallowed {ε α : Type} (truthy : α → Bool) (store : Store α)
    (key : String) (userId : Option String) (expiry now : Int) (d : Option α)
    (hmiss : loadFromCache store key userId now = none) :
    saveToCache store key d userId expiry now false = store ∧
    withCacheRun truthy ⟨store, [], [], 0, now, false⟩
        (withCacheTask key userId expiry false (Except.ok d : Except ε (Option α))) =
      (⟨store, [], [Except.ok d], 1, now, false⟩,
        ⟨key, userId, expiry, false, Except.ok d, Phase.done (Except.ok d)⟩) := by
  refine ⟨rfl, ?_⟩
  have h := @run_miss_ok ε α truthy store key userId expiry now false d hmiss
  simpa [saveToCache] using h

/-- Witness for C9 at a concrete input. -/
theorem c9_write_failure_swallowed_witness :
    saveToCache ([] : Store Nat) "k" (some 4) (some "u") 1000 0 false = [] ∧
    withCacheRun (fun _ => true) (⟨[], [], [], 0, 0, false⟩ : World Unit Nat)
        (withCacheTask "k" (some "u") 1000 false (Except.ok (some 4) : Except Unit (Option Nat))) =
      (⟨[], [], [Except.ok (some 4)], 1, 0, false⟩,
        ⟨"k", some "u", 1000, false, Except.ok (some 4), Phase.done (Except.ok (some 4))⟩) :=
  c9_write_failure_swallowed (fun _ => true) [] "k" (some "u") 1000 0 (some 4) rfl

/-- C10: a null payload stored by `saveToCache` is present and unexpired
in the store, yet `loadFromCache` returns the miss sentinel for it, and
a subsequent `withCache` re-invokes `fetchFn` (fetch count 1) and
overwrites the entry: at the public interface a stored null payload is
indistinguishable from an empty slot. -/
theorem c10_null_payload_is_miss {ε α : Type} (truthy : α → Bool) (store : Store α)
    (key : String) (userId : Option String) (expiry t now : Int) (v : Option α)
    (hfresh : now - t < expiry) :
    alGet (saveToCache store key none userId expiry t true) (cacheKeyOf key userId) =
      some (Entry.good none t (some expiry)) ∧
    now - t < expiry ∧
    loadFromCache (saveToCache store key none userId expiry t true) key userId now = none ∧
    withCacheRun truthy ⟨saveToCache store key none userId expiry t true, [], [], 0, now, true⟩
        (withCacheTask key userId expiry false (Except.ok v : Except ε (Option α))) =
      (⟨saveToCache (saveToCache store key none userId expiry t true) key v userId expiry now true,
          [], [Except.ok v], 1, now, true⟩,
        ⟨key, userId, expiry, false, Except.ok v, Phase.done (Except.ok v)⟩) := by
  have hmiss :
      loadFromCache (saveToCache store key none userId expiry t true) key userId now = none := by
    unfold loadFromCache saveToCache
    simp [alGet_alSet_self, loadPure]
  refine ⟨?_, hfresh, hmiss, run_miss_ok truthy _ key userId expiry now true v hmiss⟩
  unfold saveToCache
  simp [alGet_alSet_self]

/-- Witness for C10 at a concrete input. -/
theorem c10_null_payload_is_miss_witness :
    alGet (saveToCache ([] : Store Nat) "k" none (some "u") 1000 0 true) (cacheKeyOf "k" (some "u")) =
      some (Entry.good none 0 (some 1000)) ∧
    (5 : Int) - 0 < 1000 ∧
    loadFromCache (saveToCache ([] : Store Nat) "k" none (some "u") 1000 0 true) "k" (some "u") 5 = none ∧
    withCacheRun (fun _ => true)
        (⟨saveToCache ([] : Store Nat) "k" none (some "u") 1000 0 true, [], [], 0, 5, true⟩ : World Unit Nat)
        (withCacheTask "k" (some "u") 1000 false (Except.ok (some 7) : Except Unit (Option Nat))) =
      (⟨saveToCache (saveToCache [] "k" none (some "u") 1000 0 true) "k" (some 7) (some "u") 1000 5 true,
          [], [Except.ok (some 7)], 1, 5, true⟩,
        ⟨"k", some "u", 1000, false, Except.ok (some 7), Phase.done (Except.ok (some 7))⟩) :=
  c10_null_payload_is_miss (fun _ => true) [] "k" (some "u") 1000 0 5 (some 7) (by decide)


end Eiga
